import Mathlib

/-!
Verification of the CourtVision event-detection pipeline.

This file gives a shallow embedding, in Lean 4, of the core event-detection
components of the CourtVision repository:

  * `ViolationDetector` (src/backend/violation_detector.py)
  * `ShotDetector` (src/backend/shot_detector.py)
  * `PassAndInterceptionDetector`
    (src/backend/pass_and_interception_detector/pass_and_interception_detector.py)
  * `EventCollector` (src/backend/event_collector.py)

Coordinates are modelled with rationals (`ℚ`).  Euclidean-norm comparisons of
the form `np.linalg.norm v < t` (with `t > 0`) are embedded as the equivalent
squared-distance comparisons `normSq v < t ^ 2`, which avoids square roots while
computing exactly the same booleans for the nonnegative thresholds the source
uses.  Python dictionaries keyed by track id are embedded as association lists;
`dict.get(k, default)` becomes an association-list lookup with a default.
Python's `list[-n:]` slice (which yields the whole list when `n = 0`) is
embedded by `pyTakeLast`.
-/

/-- A 2-D point (x, y), as produced by the bbox-center helpers. -/
abbrev Point : Type := ℚ × ℚ

/-- A bounding box (x1, y1, x2, y2). -/
abbrev Bbox : Type := ℚ × ℚ × ℚ × ℚ

/-- Squared Euclidean norm of the difference of two points; stands for
`np.linalg.norm (p - q) ^ 2`. -/
def distSq (p q : Point) : ℚ :=
  (p.1 - q.1) ^ 2 + (p.2 - q.2) ^ 2

/-- Squared Euclidean norm of a vector. -/
def normSq (v : Point) : ℚ :=
  v.1 ^ 2 + v.2 ^ 2

/-- Python `xs[-n:]`: the last `n` elements, or the whole list when `n = 0`
(Python's `-0` is `0`, so `xs[-0:]` is all of `xs`). -/
def pyTakeLast (n : ℕ) (xs : List α) : List α :=
  if n = 0 then xs else xs.drop (xs.length - n)

/-- Python `xs[a:b]` for natural bounds `a ≤ b`: drop `a`, then keep `b - a`. -/
def pySlice (a b : ℕ) (xs : List α) : List α :=
  (xs.drop a).take (b - a)

/-- `_get_ball_center` / `_get_hoop_center`: center of a bbox, `none` for a
missing/empty bbox (Python truthiness of the empty list). -/
def getBallCenter : Option Bbox → Option Point
  | none => none
  | some (x1, y1, x2, y2) => some ((x1 + x2) / 2, (y1 + y2) / 2)

/-- `_get_player_center`: identical computation to `getBallCenter`. -/
def getPlayerCenter : Option Bbox → Option Point :=
  getBallCenter

/-! ## ViolationDetector (src/backend/violation_detector.py) -/

/-- The `action` field of a player state: `'no_ball' | 'holding' | 'transient'`. -/
inductive PlayerAction : Type
  | no_ball
  | holding
  | transient
deriving DecidableEq

/-- The per-player state record kept in `ViolationDetector.player_states`. -/
structure PlayerState : Type where
  action : PlayerAction
  dribble_stopped : Bool
  last_pos : Option Point
  violation_committed : Bool
deriving DecidableEq

/-- The defaultdict default: `{'action': 'no_ball', 'dribble_stopped': False,
'last_pos': None, 'violation_committed': False}`. -/
def defaultPlayerState : PlayerState :=
  ⟨.no_ball, false, none, false⟩

/-- Constructor parameters of `ViolationDetector`.  The source stores
`hold_history_len = int(hold_duration_seconds * fps)`; we keep the resulting
frame count directly. -/
structure VConfig : Type where
  travel_threshold : ℚ
  hold_history_len : ℕ
  hold_stationary_threshold : ℚ
  dribble_start_stability_threshold : ℚ

/-- `_is_holding`: the recent ball-position window is full and every sample is
within the stationary threshold of the first sample.  `np.max(dists) < t` is
embedded as `∀ d ∈ dists, d < t`, with distances compared squared.  When the
window of non-null samples is empty (possible only for `hold_history_len = 0`)
the source would raise in `np.max`; we return `false`, which no theorem below
depends on. -/
def isHolding (cfg : VConfig) (hist : List (Option Point)) : Bool :=
  if hist.length < cfg.hold_history_len then false
  else
    let recent := (pyTakeLast cfg.hold_history_len hist).filterMap id
    if recent.length < cfg.hold_history_len then false
    else
      match recent with
      | [] => false
      | p0 :: _ =>
        recent.all fun p => decide (distSq p p0 < cfg.hold_stationary_threshold ^ 2)

/-- `_is_starting_dribble`: the last four samples are all present, the first two
are vertically stable, and the last two steps each move down (larger y) by more
than one unit. -/
def isStartingDribble (cfg : VConfig) (hist : List (Option Point)) : Bool :=
  if hist.length < 4 then false
  else
    match pyTakeLast 4 hist with
    | [some p1, some p2, some p3, some p4] =>
      decide (|p2.2 - p1.2| < cfg.dribble_start_stability_threshold) &&
        (decide (p3.2 + 1 < p4.2) && decide (p2.2 + 1 < p3.2))
    | _ => false

/-- One frame of input to `detect_violations`: the frame's player tracks (an
association list `track_id ↦ bbox`), the ball bbox, and the acquisition value. -/
structure VFrame : Type where
  players : List (ℤ × Bbox)
  ball : Option Bbox
  holder : ℤ
deriving DecidableEq

/-- `player_tracks[frame].get(pid, {}).get('bbox')`. -/
def lookupBbox (ps : List (ℤ × Bbox)) (pid : ℤ) : Option Bbox :=
  (ps.find? fun e => e.1 == pid).map Prod.snd

/-- Mutable state of a `detect_violations` run. -/
structure VState : Type where
  states : List (ℤ × PlayerState)
  history : List (Option Point)
  totalTravels : ℕ
  totalDD : ℕ
deriving DecidableEq

/-- Initial state of a `detect_violations` run. -/
def initVState : VState :=
  ⟨[], [], 0, 0⟩

/-- The body of the reset loop (lines 72-78): a non-holder keeps
`dribble_stopped` (set to `true` if it had the ball in an active state) and is
otherwise reset. -/
def resetOne (st : PlayerState) : PlayerState :=
  { action := .no_ball
    dribble_stopped := if st.action ≠ .no_ball then true else st.dribble_stopped
    last_pos := none
    violation_committed := false }

/-- The reset loop over the currently tracked ids: every entry whose id differs
from the holder is reset. -/
def resetNonHolders (states : List (ℤ × PlayerState)) (holder : ℤ) :
    List (ℤ × PlayerState) :=
  states.map fun e => if e.1 == holder then e else (e.1, resetOne e.2)

/-- defaultdict access `self.player_states[pid]` creates the entry if absent. -/
def ensureKey (states : List (ℤ × PlayerState)) (pid : ℤ) :
    List (ℤ × PlayerState) :=
  if states.any (fun e => e.1 == pid) then states
  else states ++ [(pid, defaultPlayerState)]

/-- Read a player's state (the defaultdict default if the id is untracked). -/
def getState (states : List (ℤ × PlayerState)) (pid : ℤ) : PlayerState :=
  ((states.find? fun e => e.1 == pid).map Prod.snd).getD defaultPlayerState

/-- Write back a player's state. -/
def setState (states : List (ℤ × PlayerState)) (pid : ℤ) (st : PlayerState) :
    List (ℤ × PlayerState) :=
  states.map fun e => if e.1 == pid then (pid, st) else e

/-- Lines 88-91: the double-dribble check.  Returns the updated state together
with the number of double dribbles added (0 or 1). -/
def ddCheck (cfg : VConfig) (hist : List (Option Point)) (st : PlayerState) :
    PlayerState × ℕ :=
  if isStartingDribble cfg hist && st.dribble_stopped && !st.violation_committed then
    ({ st with violation_committed := true, dribble_stopped := false }, 1)
  else (st, 0)

/-- Lines 93-100: the holding / transient transition. -/
def holdUpdate (cfg : VConfig) (hist : List (Option Point)) (ppos : Point)
    (st : PlayerState) : PlayerState :=
  if isHolding cfg hist then
    if st.action ≠ .holding then
      { st with dribble_stopped := true, last_pos := some ppos, action := .holding }
    else { st with action := .holding }
  else { st with action := .transient, last_pos := none }

/-- Lines 102-108: the travel check, run only while holding with an anchor and
no violation committed this episode.  `distance > travel_threshold` is embedded
squared. -/
def travelCheck (cfg : VConfig) (ppos : Point) (st : PlayerState) :
    PlayerState × ℕ :=
  match st.last_pos with
  | some anchor =>
    if st.action = .holding && !st.violation_committed &&
        decide (distSq ppos anchor > cfg.travel_threshold ^ 2) then
      ({ st with violation_committed := true, last_pos := some ppos }, 1)
    else (st, 0)
  | none => (st, 0)

/-- One iteration of the frame loop of `detect_violations` (lines 66-111),
excluding the appends to the output arrays. -/
def processFrame (cfg : VConfig) (s : VState) (fr : VFrame) : VState :=
  let hist := s.history ++ [getBallCenter fr.ball]
  let states := resetNonHolders s.states fr.holder
  if fr.holder = -1 then
    { s with history := hist, states := states }
  else
    let states := ensureKey states fr.holder
    match getPlayerCenter (lookupBbox fr.players fr.holder) with
    | none => { s with history := hist, states := states }
    | some ppos =>
      let st := getState states fr.holder
      let stDD := ddCheck cfg hist st
      let st2 := holdUpdate cfg hist ppos stDD.1
      let stTr := travelCheck cfg ppos st2
      { history := hist
        states := setState states fr.holder stTr.1
        totalTravels := s.totalTravels + stTr.2
        totalDD := s.totalDD + stDD.2 }

/-- Run the frame loop, recording the per-frame output entries.  The source
pre-initializes `travels` and `double_dribbles` to `[0] * num_frames` and
writes `travels[f] = total_travels`, `double_dribbles[f] =
total_double_dribbles` at the END of each loop iteration; the
`if player_pos is None: continue` on line 83 therefore skips those writes, so
a frame whose holder is valid but has no bounding box keeps the initial 0 in
both output arrays (while the running totals, history append and reset loop
are unaffected). -/
def violationSteps (cfg : VConfig) (s : VState) : List VFrame → List (ℕ × ℕ)
  | [] => []
  | fr :: rest =>
    let s' := processFrame cfg s fr
    (if fr.holder ≠ -1 ∧ getPlayerCenter (lookupBbox fr.players fr.holder) = none
      then (0, 0)
      else (s'.totalTravels, s'.totalDD)) :: violationSteps cfg s' rest

/-- Zip the three per-frame input arrays of `detect_violations` into frames.
The source indexes `ball_tracks[f]` and `ball_aquisition[f]` for every
`f < len(player_tracks)`; under the equal-length precondition this zip is the
same traversal. -/
def mkVFrames (pt : List (List (ℤ × Bbox))) (bt : List (Option Bbox))
    (ba : List ℤ) : List VFrame :=
  (pt.zip (bt.zip ba)).map fun x => ⟨x.1, x.2.1, x.2.2⟩

/-- `ViolationDetector.detect_violations`: the pair of cumulative
travel / double-dribble arrays. -/
def detectViolations (cfg : VConfig) (pt : List (List (ℤ × Bbox)))
    (bt : List (Option Bbox)) (ba : List ℤ) : List ℕ × List ℕ :=
  let out := violationSteps cfg initVState (mkVFrames pt bt ba)
  (out.map Prod.fst, out.map Prod.snd)

/-- The detector state after the first `f` frames have been processed. -/
def stateAt (cfg : VConfig) (pt : List (List (ℤ × Bbox)))
    (bt : List (Option Bbox)) (ba : List ℤ) (f : ℕ) : VState :=
  ((mkVFrames pt bt ba).take f).foldl (processFrame cfg) initVState

/-! ## ShotDetector (src/backend/shot_detector.py) -/

/-- Constructor parameters of `ShotDetector`. -/
structure SConfig : Type where
  trajectory_frames : ℕ
  min_trajectory_points : ℕ

/-- The constructor defaults: `trajectory_frames = 5`,
`min_trajectory_points = 3`. -/
def sDefault : SConfig := ⟨5, 3⟩

/-- `_line_intersects_box`: true iff either endpoint lies strictly inside the
box (the source's deliberately simplified test). -/
def lineIntersectsBox (p1 p2 : Point) (box : Bbox) : Bool :=
  let (x1, y1, x2, y2) := box
  (decide (x1 < p1.1) && decide (p1.1 < x2) &&
     decide (y1 < p1.2) && decide (p1.2 < y2)) ||
  (decide (x1 < p2.1) && decide (p2.1 < x2) &&
     decide (y1 < p2.2) && decide (p2.2 < y2))

/-- The ball center at frame `f` (from `ball_tracks[f].get(1, {}).get('bbox', [])`). -/
def ballCenterAt (bt : List (Option Bbox)) (f : ℕ) : Option Point :=
  getBallCenter (bt.getD f none)

/-- `ball_pos_history` as it stands right after the append at frame `f`:
the centers of frames `0 .. f`. -/
def ballHistory (bt : List (Option Bbox)) (f : ℕ) : List (Option Point) :=
  (bt.take (f + 1)).map getBallCenter

/-- `recent_ball_positions`: the non-null centers among the last
`trajectory_frames` entries of the history at frame `f`. -/
def recentBallPositions (cfg : SConfig) (bt : List (Option Bbox)) (f : ℕ) :
    List Point :=
  (pyTakeLast cfg.trajectory_frames (ballHistory bt f)).filterMap id

/-- `recent_ball_positions[0]`.  At every use site the list is nonempty (it
contains the current non-null center), so the `headD` default is inert; on an
empty list the source would raise. -/
def trajStart (cfg : SConfig) (bt : List (Option Bbox)) (f : ℕ) : Point :=
  (recentBallPositions cfg bt f).headD (0, 0)

/-- `recent_ball_positions[-1]`, with the same inert-default remark. -/
def trajEnd (cfg : SConfig) (bt : List (Option Bbox)) (f : ℕ) : Point :=
  (recentBallPositions cfg bt f).getLastD (0, 0)

/-- The trajectory direction vector `p_end - p_start` at frame `f`. -/
def trajVec (cfg : SConfig) (bt : List (Option Bbox)) (f : ℕ) : Point :=
  ((trajEnd cfg bt f).1 - (trajStart cfg bt f).1,
   (trajEnd cfg bt f).2 - (trajStart cfg bt f).2)

/-- The body of the `detect_shots` frame loop at frame `f`: the shooter id, or
`-1` when any guard short-circuits.  The accumulated `ball_pos_history` is the
pure function `ballHistory` of the input prefix. -/
def shotAt (cfg : SConfig) (bt : List (Option Bbox)) (ba : List ℤ)
    (hoops : List (Option Bbox)) (f : ℕ) : ℤ :=
  if hoops.length ≤ f then -1
  else
    match hoops.getD f none, ballCenterAt bt f with
    | some hoopBbox, some _ =>
      if f < cfg.trajectory_frames then -1
      else
        let recent := recentBallPositions cfg bt f
        if recent.length < cfg.min_trajectory_points then -1
        else
          let pStart := trajStart cfg bt f
          let pEnd := trajEnd cfg bt f
          let dv := trajVec cfg bt f
          if normSq dv < 4 then -1
          else
            let pProj := (pEnd.1 + dv.1 * 5, pEnd.2 + dv.2 * 5)
            if decide (pEnd.2 < pStart.2) && lineIntersectsBox pEnd pProj hoopBbox then
              let who := ba.getD (f - 1) (-1)
              if who = -1 then -1 else who
            else -1
    | _, _ => -1

/-- `ShotDetector.detect_shots`. -/
def detectShots (cfg : SConfig) (bt : List (Option Bbox)) (ba : List ℤ)
    (hoops : List (Option Bbox)) : List ℤ :=
  (List.range bt.length).map (shotAt cfg bt ba hoops)

/-! ## PassAndInterceptionDetector
(src/backend/pass_and_interception_detector/pass_and_interception_detector.py) -/

/-- `player_assignment[frame].get(pid, -1)`. -/
def teamOf (assignment : List (ℤ × ℤ)) (pid : ℤ) : ℤ :=
  ((assignment.find? fun e => e.1 == pid).map Prod.snd).getD (-1)

/-- The body of the `detect_passes` loop at frame `f`, given the running
`prev_holder` / `previous_frame` pair (already updated for this iteration). -/
def passEmit (ba : List ℤ) (pa : List (List (ℤ × ℤ))) (f : ℕ) (ph : ℤ)
    (pf : ℕ) : ℤ :=
  let cur := ba.getD f (-1)
  if ph ≠ -1 ∧ cur ≠ -1 ∧ ph ≠ cur then
    let prevTeam := teamOf (pa.getD pf []) ph
    let curTeam := teamOf (pa.getD f []) cur
    if prevTeam = curTeam ∧ prevTeam ≠ -1 then prevTeam else -1
  else -1

/-- The body of the `detect_interceptions` loop at frame `f`.  `shot_window`
is the literal 24 of the source; `shot_attempts[max(0, f-24):f]` is the
`pySlice` below (natural subtraction is Python's `max(0, ·)`). -/
def interceptEmit (ba : List ℤ) (pa : List (List (ℤ × ℤ))) (sa : List Bool)
    (f : ℕ) (ph : ℤ) (pf : ℕ) : ℤ :=
  let shotRecent := (pySlice (f - 24) f sa).any id
  let cur := ba.getD f (-1)
  if ph ≠ -1 ∧ cur ≠ -1 ∧ ph ≠ cur then
    let prevTeam := teamOf (pa.getD pf []) ph
    let curTeam := teamOf (pa.getD f []) cur
    if prevTeam ≠ curTeam ∧ prevTeam ≠ -1 ∧ curTeam ≠ -1 ∧ shotRecent = false then
      curTeam
    else -1
  else -1

/-- The shared loop skeleton of both detectors: walk the frame indices,
updating `prev_holder` / `previous_frame` from `ball_acquisition[f-1]` first
(exactly lines 28-31 and 60-63 of the source), then emit this frame's value.
The source initializes `previous_frame = -1`; it is read only under
`prev_holder ≠ -1`, at which point it has been overwritten, so we carry it as
a natural number initialized to 0. -/
def transGo (ba : List ℤ) (emit : ℕ → ℤ → ℕ → ℤ) :
    List ℕ → ℤ → ℕ → List ℤ
  | [], _, _ => []
  | f :: rest, ph, pf =>
    let b := ba.getD (f - 1) (-1)
    let ph' := if b ≠ -1 then b else ph
    let pf' := if b ≠ -1 then f - 1 else pf
    emit f ph' pf' :: transGo ba emit rest ph' pf'

/-- `PassAndInterceptionDetector.detect_passes`.  Index 0 keeps the `-1`
initialization; the loop runs over frames `1 .. len-1`. -/
def detectPasses (ba : List ℤ) (pa : List (List (ℤ × ℤ))) : List ℤ :=
  if ba.length = 0 then []
  else -1 :: transGo ba (passEmit ba pa) (List.range' 1 (ba.length - 1)) (-1) 0

/-- `PassAndInterceptionDetector.detect_interceptions`. -/
def detectInterceptions (ba : List ℤ) (pa : List (List (ℤ × ℤ)))
    (sa : List Bool) : List ℤ :=
  if ba.length = 0 then []
  else -1 :: transGo ba (interceptEmit ba pa sa) (List.range' 1 (ba.length - 1)) (-1) 0

/-! ## EventCollector (src/backend/event_collector.py) -/

/-- One collected event.  `timestamp` is `frame / fps` as a rational. -/
structure Event : Type where
  typ : String
  timestamp : ℚ
  frame : ℕ
  team : Option ℤ
  player_id : Option ℤ
  description : String
deriving DecidableEq

/-- `_frame_to_timestamp`. -/
def frameToTimestamp (fps : ℚ) (f : ℕ) : ℚ :=
  f / fps

/-- A `travel` event as built by `collect_violations`. -/
def travelEvent (fps : ℚ) (f : ℕ) : Event :=
  ⟨"travel", frameToTimestamp fps f, f, none, none, "Travel violation"⟩

/-- A `double_dribble` event as built by `collect_violations`. -/
def ddEvent (fps : ℚ) (f : ℕ) : Event :=
  ⟨"double_dribble", frameToTimestamp fps f, f, none, none, "Double dribble violation"⟩

/-- A `pass` event as built by `collect_passes`. -/
def passEvent (fps : ℚ) (f : ℕ) (team : ℤ) : Event :=
  ⟨"pass", frameToTimestamp fps f, f, some team, none,
    "Team " ++ toString team ++ " pass"⟩

/-- An `interception` event as built by `collect_interceptions`. -/
def interceptionEvent (fps : ℚ) (f : ℕ) (team : ℤ) : Event :=
  ⟨"interception", frameToTimestamp fps f, f, some team, none,
    "Team " ++ toString team ++ " interception"⟩

/-- A `shot` event as built by `collect_shots`. -/
def shotEvent (fps : ℚ) (f : ℕ) (pid : ℤ) : Event :=
  ⟨"shot", frameToTimestamp fps f, f, none, some pid,
    "Shot by player " ++ toString pid⟩

/-- The `EventCollector` instance state (fps and the `self.events` list). -/
structure ECState : Type where
  fps : ℚ
  events : List Event
deriving DecidableEq

/-- `EventCollector(fps)`. -/
def initEC (fps : ℚ) : ECState :=
  ⟨fps, []⟩

/-- The `collect_violations` loop over `zip(travels, double_dribbles)` with its
two running `prev` counters, returning the appended events in order (each
frame's `travel` event, if any, precedes its `double_dribble` event, matching
the source's append order). -/
def collectViolLoop (fps : ℚ) : List (ℕ × ℕ) → ℕ → ℕ → ℕ → List Event
  | [], _, _, _ => []
  | (t, d) :: rest, i, prevT, prevD =>
    (if prevT < t then [travelEvent fps i] else []) ++
    (if prevD < d then [ddEvent fps i] else []) ++
    collectViolLoop fps rest (i + 1) (if prevT < t then t else prevT)
      (if prevD < d then d else prevD)

/-- `EventCollector.collect_violations`. -/
def collectViolations (travels dds : List ℕ) (st : ECState) : ECState :=
  { st with events := st.events ++ collectViolLoop st.fps (travels.zip dds) 0 0 0 }

/-- `EventCollector.collect_passes`. -/
def collectPasses (passes : List ℤ) (st : ECState) : ECState :=
  { st with
    events := st.events ++ passes.enum.filterMap fun e =>
      if e.2 ≠ -1 then some (passEvent st.fps e.1 e.2) else none }

/-- `EventCollector.collect_interceptions`. -/
def collectInterceptions (ints : List ℤ) (st : ECState) : ECState :=
  { st with
    events := st.events ++ ints.enum.filterMap fun e =>
      if e.2 ≠ -1 then some (interceptionEvent st.fps e.1 e.2) else none }

/-- `EventCollector.collect_shots`. -/
def collectShots (shotIds : List ℤ) (st : ECState) : ECState :=
  { st with
    events := st.events ++ shotIds.enum.filterMap fun e =>
      if e.2 ≠ -1 then some (shotEvent st.fps e.1 e.2) else none }

/-- Insert an event into an already-sorted-by-timestamp list, before the first
strictly later element; an element inserted this way lands after every earlier
element with an equal timestamp, which is exactly the stable placement of
Python's `sorted(..., key=lambda x: x['timestamp'])`. -/
def insertByTs (e : Event) : List Event → List Event
  | [] => [e]
  | x :: xs =>
    if x.timestamp < e.timestamp then x :: insertByTs e xs else e :: x :: xs

/-- Stable sort by timestamp.  Python's `sorted` is a stable sort on a total
key order; a stable insertion sort computes the identical output list. -/
def sortByTs : List Event → List Event
  | [] => []
  | x :: xs => insertByTs x (sortByTs xs)

/-- `EventCollector.get_events`. -/
def getEvents (st : ECState) : List Event :=
  sortByTs st.events

/-- One `collect_*` call, for quantifying over arbitrary call sequences. -/
inductive CollectCall : Type
  | violations (travels dds : List ℕ)
  | passes (ps : List ℤ)
  | interceptions (ints : List ℤ)
  | shots (ids : List ℤ)

/-- Apply one `collect_*` call to the collector state. -/
def applyCall (st : ECState) : CollectCall → ECState
  | .violations travels dds => collectViolations travels dds st
  | .passes ps => collectPasses ps st
  | .interceptions ints => collectInterceptions ints st
  | .shots ids => collectShots ids st

/-- Apply a sequence of `collect_*` calls. -/
def runCalls (st : ECState) (calls : List CollectCall) : ECState :=
  calls.foldl applyCall st

/-! ## Helper lemmas -/

theorem processFrame_totalTravels_le (cfg : VConfig) (s : VState) (fr : VFrame) :
    s.totalTravels ≤ (processFrame cfg s fr).totalTravels := by
  unfold processFrame
  split
  · exact le_rfl
  · split
    · exact le_rfl
    · exact Nat.le_add_right _ _

theorem processFrame_totalDD_le (cfg : VConfig) (s : VState) (fr : VFrame) :
    s.totalDD ≤ (processFrame cfg s fr).totalDD := by
  unfold processFrame
  split
  · exact le_rfl
  · split
    · exact le_rfl
    · exact Nat.le_add_right _ _

theorem foldl_totalTravels_le (cfg : VConfig) (frames : List VFrame) :
    ∀ s : VState,
      s.totalTravels ≤ (frames.foldl (processFrame cfg) s).totalTravels := by
  induction frames with
  | nil => intro s; exact le_rfl
  | cons fr rest ih =>
    intro s
    exact le_trans (processFrame_totalTravels_le cfg s fr)
      (ih (processFrame cfg s fr))

theorem foldl_totalDD_le (cfg : VConfig) (frames : List VFrame) :
    ∀ s : VState, s.totalDD ≤ (frames.foldl (processFrame cfg) s).totalDD := by
  induction frames with
  | nil => intro s; exact le_rfl
  | cons fr rest ih =>
    intro s
    exact le_trans (processFrame_totalDD_le cfg s fr)
      (ih (processFrame cfg s fr))

theorem violationSteps_length (cfg : VConfig) (frames : List VFrame) :
    ∀ s : VState, (violationSteps cfg s frames).length = frames.length := by
  induction frames with
  | nil => intro s; rfl
  | cons fr rest ih => intro s; simp [violationSteps, ih]

theorem mkVFrames_length (pt : List (List (ℤ × Bbox))) (bt : List (Option Bbox))
    (ba : List ℤ) (h1 : pt.length = bt.length) (h2 : bt.length = ba.length) :
    (mkVFrames pt bt ba).length = pt.length := by
  simp [mkVFrames, h1, h2]

theorem violationSteps_getD (cfg : VConfig) :
    ∀ (frames : List VFrame) (s : VState) (i : ℕ), i < frames.length →
      (violationSteps cfg s frames).getD i (0, 0) =
        if (frames.getD i ⟨[], none, -1⟩).holder ≠ -1 ∧
            getPlayerCenter (lookupBbox (frames.getD i ⟨[], none, -1⟩).players
              (frames.getD i ⟨[], none, -1⟩).holder) = none
        then (0, 0)
        else (((frames.take (i + 1)).foldl (processFrame cfg) s).totalTravels,
          ((frames.take (i + 1)).foldl (processFrame cfg) s).totalDD) := by
  intro frames
  induction frames with
  | nil => intro s i h; exact absurd h (by simp)
  | cons fr rest ih =>
    intro s i h
    cases i with
    | zero =>
      simp only [violationSteps, List.getD_cons_zero]
      rfl
    | succ i' =>
      simp only [violationSteps, List.getD_cons_succ]
      rw [ih (processFrame cfg s fr) i' (by simpa using h)]
      rfl

theorem detectViolations_fst_getD (cfg : VConfig) (pt : List (List (ℤ × Bbox)))
    (bt : List (Option Bbox)) (ba : List ℤ) {f : ℕ}
    (hf : f < (mkVFrames pt bt ba).length) :
    (detectViolations cfg pt bt ba).1.getD f 0 =
      ((violationSteps cfg initVState (mkVFrames pt bt ba)).getD f (0, 0)).1 := by
  unfold detectViolations
  rw [List.getD_eq_getElem _ _ (by simpa [violationSteps_length] using hf),
    List.getD_eq_getElem _ _ (by simpa [violationSteps_length] using hf)]
  simp

theorem detectViolations_snd_getD (cfg : VConfig) (pt : List (List (ℤ × Bbox)))
    (bt : List (Option Bbox)) (ba : List ℤ) {f : ℕ}
    (hf : f < (mkVFrames pt bt ba).length) :
    (detectViolations cfg pt bt ba).2.getD f 0 =
      ((violationSteps cfg initVState (mkVFrames pt bt ba)).getD f (0, 0)).2 := by
  unfold detectViolations
  rw [List.getD_eq_getElem _ _ (by simpa [violationSteps_length] using hf),
    List.getD_eq_getElem _ _ (by simpa [violationSteps_length] using hf)]
  simp

/-- Claim C1 fails on the code: the per-frame writes `travels[f] =
total_travels` / `double_dribbles[f] = total_double_dribbles` sit at the end
of each loop iteration, and the `if player_pos is None: continue` (line 83 of
violation_detector.py) jumps past them, leaving the pre-initialized 0.  On
this input a travel is counted at frame 1 (`travels[1] = 1`), and frame 2's
holder is valid but has no bounding box, so `travels[2] = 0 < travels[1]`,
contradicting monotonicity. -/
theorem c1_code_bug_skipped_frame :
    (detectViolations ⟨30, 1, 8, 5⟩
        [[(1, (0, 0, 0, 0))], [(1, (100, 0, 100, 0))], []]
        [some (0, 0, 0, 20), some (0, 0, 0, 20), some (0, 0, 0, 20)]
        [1, 1, 1]).1 = [0, 1, 0] ∧
      ¬(detectViolations ⟨30, 1, 8, 5⟩
          [[(1, (0, 0, 0, 0))], [(1, (100, 0, 100, 0))], []]
          [some (0, 0, 0, 20), some (0, 0, 0, 20), some (0, 0, 0, 20)]
          [1, 1, 1]).1.getD 1 0 ≤
        (detectViolations ⟨30, 1, 8, 5⟩
          [[(1, (0, 0, 0, 0))], [(1, (100, 0, 100, 0))], []]
          [some (0, 0, 0, 20), some (0, 0, 0, 20), some (0, 0, 0, 20)]
          [1, 1, 1]).1.getD 2 0 := by
  with_unfolding_all decide

/-- The scope of the C1 defect: at every frame whose outputs ARE written
(holder `-1`, or holder with a computable center), the arrays are monotone
over the previous frame; the running totals themselves never decrease, only
the skipped frames' outputs drop to the initial 0. -/
theorem detectViolations_written_monotone (cfg : VConfig)
    (pt : List (List (ℤ × Bbox))) (bt : List (Option Bbox)) (ba : List ℤ)
    (h1 : pt.length = bt.length) (h2 : bt.length = ba.length)
    (f : ℕ) (hf1 : 1 ≤ f) (hf2 : f < pt.length)
    (hwritten : ¬(ba.getD f (-1) ≠ -1 ∧
      getPlayerCenter (lookupBbox (pt.getD f []) (ba.getD f (-1))) = none)) :
    (detectViolations cfg pt bt ba).1.getD (f - 1) 0 ≤
        (detectViolations cfg pt bt ba).1.getD f 0 ∧
      (detectViolations cfg pt bt ba).2.getD (f - 1) 0 ≤
        (detectViolations cfg pt bt ba).2.getD f 0 := by
  have hlen : (mkVFrames pt bt ba).length = pt.length :=
    mkVFrames_length pt bt ba h1 h2
  have hfr : (mkVFrames pt bt ba).getD f ⟨[], none, -1⟩ =
      ⟨pt.getD f [], bt.getD f none, ba.getD f (-1)⟩ := by
    rw [List.getD_eq_getElem _ _ (by omega),
      List.getD_eq_getElem pt [] hf2, List.getD_eq_getElem bt none (by omega),
      List.getD_eq_getElem ba (-1) (by omega)]
    simp [mkVFrames]
  have hv1 := violationSteps_getD cfg (mkVFrames pt bt ba) initVState f
    (by omega)
  have hv0 := violationSteps_getD cfg (mkVFrames pt bt ba) initVState (f - 1)
    (by omega)
  rw [hfr] at hv1
  rw [if_neg hwritten] at hv1
  have hstep : ∀ g : VState → ℕ,
      (∀ s fr, g s ≤ g (processFrame cfg s fr)) →
      g (((mkVFrames pt bt ba).take f).foldl (processFrame cfg) initVState) ≤
        g (((mkVFrames pt bt ba).take (f + 1)).foldl (processFrame cfg)
          initVState) := by
    intro g hg
    rw [List.take_succ, List.foldl_append]
    rcases hx : (mkVFrames pt bt ba)[f]? with _ | fr
    · rw [List.getElem?_eq_none_iff] at hx
      omega
    · simp only [Option.toList, List.foldl]
      exact hg _ fr
  have hT := hstep (fun s => s.totalTravels)
    (fun s fr => processFrame_totalTravels_le cfg s fr)
  have hD := hstep (fun s => s.totalDD)
    (fun s fr => processFrame_totalDD_le cfg s fr)
  have hprev1 : (detectViolations cfg pt bt ba).1.getD (f - 1) 0 ≤
      (((mkVFrames pt bt ba).take f).foldl (processFrame cfg)
        initVState).totalTravels := by
    rw [detectViolations_fst_getD cfg pt bt ba (by omega), hv0]
    split
    · exact Nat.zero_le _
    · have hf' : f - 1 + 1 = f := by omega
      rw [hf']
  have hprev2 : (detectViolations cfg pt bt ba).2.getD (f - 1) 0 ≤
      (((mkVFrames pt bt ba).take f).foldl (processFrame cfg)
        initVState).totalDD := by
    rw [detectViolations_snd_getD cfg pt bt ba (by omega), hv0]
    split
    · exact Nat.zero_le _
    · have hf' : f - 1 + 1 = f := by omega
      rw [hf']
  constructor
  · have hgoal : (detectViolations cfg pt bt ba).1.getD f 0 =
        (((mkVFrames pt bt ba).take (f + 1)).foldl (processFrame cfg)
          initVState).totalTravels := by
      rw [detectViolations_fst_getD cfg pt bt ba (show f < _ by omega), hv1]
    rw [hgoal]
    exact le_trans hprev1 hT
  · have hgoal : (detectViolations cfg pt bt ba).2.getD f 0 =
        (((mkVFrames pt bt ba).take (f + 1)).foldl (processFrame cfg)
          initVState).totalDD := by
      rw [detectViolations_snd_getD cfg pt bt ba (show f < _ by omega), hv1]
    rw [hgoal]
    exact le_trans hprev2 hD

theorem insertByTs_perm (e : Event) (l : List Event) :
    (insertByTs e l).Perm (e :: l) := by
  induction l with
  | nil => exact List.Perm.refl _
  | cons x xs ih =>
    unfold insertByTs
    split
    · exact (ih.cons x).trans (List.Perm.swap e x xs)
    · exact List.Perm.refl _

theorem sortByTs_perm (l : List Event) : (sortByTs l).Perm l := by
  induction l with
  | nil => exact List.Perm.refl _
  | cons x xs ih => exact (insertByTs_perm x (sortByTs xs)).trans (ih.cons x)

theorem pairwise_insertByTs (e : Event) (l : List Event)
    (h : l.Pairwise fun a b => a.timestamp ≤ b.timestamp) :
    (insertByTs e l).Pairwise fun a b => a.timestamp ≤ b.timestamp := by
  induction l with
  | nil => simp [insertByTs]
  | cons x xs ih =>
    rw [List.pairwise_cons] at h
    unfold insertByTs
    split
    · rename_i hlt
      rw [List.pairwise_cons]
      refine ⟨?_, ih h.2⟩
      intro y hy
      rcases List.mem_cons.mp ((insertByTs_perm e xs).mem_iff.mp hy) with hy | hy
      · exact hy ▸ hlt.le
      · exact h.1 y hy
    · rename_i hge
      rw [List.pairwise_cons]
      refine ⟨?_, List.pairwise_cons.mpr h⟩
      intro y hy
      rcases List.mem_cons.mp hy with hy | hy
      · exact hy ▸ not_lt.mp hge
      · exact le_trans (not_lt.mp hge) (h.1 y hy)

theorem pairwise_sortByTs (l : List Event) :
    (sortByTs l).Pairwise fun a b => a.timestamp ≤ b.timestamp := by
  induction l with
  | nil => simp [sortByTs]
  | cons x xs ih => exact pairwise_insertByTs x (sortByTs xs) ih

theorem filter_insertByTs (e : Event) (l : List Event) (q : ℚ) :
    (insertByTs e l).filter (fun x => decide (x.timestamp = q)) =
      ((e :: l).filter fun x => decide (x.timestamp = q)) := by
  induction l with
  | nil => rfl
  | cons x xs ih =>
    unfold insertByTs
    split
    · rename_i hlt
      by_cases he : e.timestamp = q
      · have hx : ¬x.timestamp = q := by
          rw [← he]; exact ne_of_lt hlt
        simp only [List.filter_cons, he, hx] at ih ⊢
        simpa using ih
      · simp only [List.filter_cons, he] at ih ⊢
        by_cases hx : x.timestamp = q <;> simp [hx, ih]
    · rfl

theorem filter_sortByTs (l : List Event) (q : ℚ) :
    (sortByTs l).filter (fun x => decide (x.timestamp = q)) =
      l.filter fun x => decide (x.timestamp = q) := by
  induction l with
  | nil => rfl
  | cons x xs ih =>
    unfold sortByTs
    rw [filter_insertByTs]
    simp only [List.filter_cons]
    split <;> simp [ih]

/-- Claim C2: after any sequence of `collect_violations` / `collect_passes` /
`collect_interceptions` / `collect_shots` calls, `get_events()` returns all
collected events (a permutation of `self.events`), sorted non-decreasing by
timestamp, and events with equal timestamps retain their relative insertion
order (the filtered subsequence at each timestamp is unchanged). -/
theorem c2_getEvents_sorted_stable (fps : ℚ) (calls : List CollectCall) :
    List.Pairwise (fun a b : Event => a.timestamp ≤ b.timestamp)
        (getEvents (runCalls (initEC fps) calls)) ∧
      (getEvents (runCalls (initEC fps) calls)).Perm
        (runCalls (initEC fps) calls).events ∧
      ∀ q : ℚ,
        (getEvents (runCalls (initEC fps) calls)).filter
            (fun e => decide (e.timestamp = q)) =
          (runCalls (initEC fps) calls).events.filter
            fun e => decide (e.timestamp = q) :=
  ⟨pairwise_sortByTs _, sortByTs_perm _, fun q => filter_sortByTs _ q⟩

/-- The event list claimed for `collect_violations` on cumulative inputs: at
frame `i` (threading the previous frame's values `pt`, `pd`, initially 0), one
`travel` event exactly when the travel count exceeds the previous frame's
value, then one `double_dribble` event exactly when that count does. -/
def expectedViolEvents (fps : ℚ) : ℕ → ℕ → ℕ → List ℕ → List ℕ → List Event
  | i, pt, pd, t :: ts, d :: ds =>
    (if pt < t then [travelEvent fps i] else []) ++
      (if pd < d then [ddEvent fps i] else []) ++
      expectedViolEvents fps (i + 1) t d ts ds
  | _, _, _, _, _ => []

theorem collectViolLoop_eq_expected (fps : ℚ) :
    ∀ (ts ds : List ℕ) (i pt pd : ℕ),
      List.Chain (· ≤ ·) pt ts → List.Chain (· ≤ ·) pd ds →
      collectViolLoop fps (ts.zip ds) i pt pd = expectedViolEvents fps i pt pd ts ds := by
  intro ts
  induction ts with
  | nil => intro ds i pt pd _ _; cases ds <;> rfl
  | cons t ts' ih =>
    intro ds i pt pd hT hD
    cases ds with
    | nil => rfl
    | cons d ds' =>
      rw [List.chain_cons] at hT hD
      have ht : (if pt < t then t else pt) = t := by
        rcases lt_or_eq_of_le hT.1 with h | h
        · simp [h]
        · simp [h]
      have hd : (if pd < d then d else pd) = d := by
        rcases lt_or_eq_of_le hD.1 with h | h
        · simp [h]
        · simp [h]
      show (if pt < t then [travelEvent fps i] else []) ++
          (if pd < d then [ddEvent fps i] else []) ++
          collectViolLoop fps (ts'.zip ds') (i + 1)
            (if pt < t then t else pt) (if pd < d then d else pd) =
        expectedViolEvents fps i pt pd (t :: ts') (d :: ds')
      rw [ht, hd, ih ds' (i + 1) t d hT.2 hD.2]
      rfl

/-- Claim C6: on cumulative (monotone, equal-length) inputs,
`collect_violations` emits exactly one `travel` event, with frame `f` and
timestamp `f / fps`, at every frame where the cumulative travel count exceeds
its value at the previous frame (initially 0) and none elsewhere, and
symmetrically one `double_dribble` event; concretely,
`travels = [0,0,1,1,1]`, `double_dribbles = [0,0,0,0,0]`, `fps = 30` yields
exactly one travel event with frame 2 and timestamp `2/30`. -/
theorem c6_collectViolations_events (fps : ℚ) (travels dds : List ℕ)
    (hT : List.Chain (· ≤ ·) 0 travels) (hD : List.Chain (· ≤ ·) 0 dds)
    (_hlen : travels.length = dds.length) :
    (collectViolations travels dds (initEC fps)).events =
        expectedViolEvents fps 0 0 0 travels dds ∧
      (collectViolations [0, 0, 1, 1, 1] [0, 0, 0, 0, 0] (initEC 30)).events =
        [⟨"travel", 2 / 30, 2, none, none, "Travel violation"⟩] := by
  constructor
  · show [] ++ collectViolLoop fps (travels.zip dds) 0 0 0 = _
    rw [List.nil_append, collectViolLoop_eq_expected fps travels dds 0 0 0 hT hD]
  · with_unfolding_all decide

/-- Witness for C6: the theorem applied at the concrete scenario of the claim. -/
theorem c6_witness :
    (collectViolations [0, 0, 1, 1, 1] [0, 0, 0, 0, 0] (initEC 30)).events =
      expectedViolEvents 30 0 0 0 [0, 0, 1, 1, 1] [0, 0, 0, 0, 0] :=
  (c6_collectViolations_events 30 [0, 0, 1, 1, 1] [0, 0, 0, 0, 0]
    (.cons (by omega) (.cons (by omega) (.cons (by omega) (.cons (by omega)
      (.cons (by omega) .nil)))))
    (.cons (by omega) (.cons (by omega) (.cons (by omega) (.cons (by omega)
      (.cons (by omega) .nil))))) rfl).1

theorem detectShots_getD_of_lt (cfg : SConfig) (bt : List (Option Bbox))
    (ba : List ℤ) (hoops : List (Option Bbox)) {f : ℕ} (hf : f < bt.length) :
    (detectShots cfg bt ba hoops).getD f (-1) = shotAt cfg bt ba hoops f := by
  unfold detectShots
  rw [List.getD_eq_getElem _ _ (by simpa using hf)]
  simp

theorem detectShots_getD_of_ge (cfg : SConfig) (bt : List (Option Bbox))
    (ba : List ℤ) (hoops : List (Option Bbox)) {f : ℕ} (hf : bt.length ≤ f) :
    (detectShots cfg bt ba hoops).getD f (-1) = -1 := by
  apply List.getD_eq_default
  simpa [detectShots]

/-- Claim C3: whenever `detect_shots` returns a non-sentinel value at frame
`f`, that value equals `ball_aquisition[f-1]` (the holder of the immediately
preceding frame) and is never `-1`; in particular a `-1` previous holder means
no shot is attributed. -/
theorem c3_shot_attribution (cfg : SConfig) (bt : List (Option Bbox))
    (ba : List ℤ) (hoops : List (Option Bbox)) (_hlen : ba.length = bt.length)
    (f : ℕ) (h : (detectShots cfg bt ba hoops).getD f (-1) ≠ -1) :
    (detectShots cfg bt ba hoops).getD f (-1) = ba.getD (f - 1) (-1) ∧
      ba.getD (f - 1) (-1) ≠ -1 := by
  by_cases hf : f < bt.length
  · rw [detectShots_getD_of_lt cfg bt ba hoops hf] at h ⊢
    revert h
    simp only [shotAt]
    split
    · intro h; exact absurd rfl h
    · split
      · split
        · intro h; exact absurd rfl h
        · split
          · intro h; exact absurd rfl h
          · split
            · intro h; exact absurd rfl h
            · split
              · split
                · intro h; exact absurd rfl h
                · rename_i hwho
                  intro h
                  exact ⟨rfl, hwho⟩
              · intro h; exact absurd rfl h
      · intro h; exact absurd rfl h
  · rw [detectShots_getD_of_ge cfg bt ba hoops (le_of_not_lt hf)] at h
    exact absurd rfl h

/-- Witness for C3: a concrete upward, hoop-directed trajectory at frame 5 is
attributed to the frame-4 holder. -/
theorem c3_witness :
    (detectShots sDefault
        [some (10, 100, 10, 100), some (10, 90, 10, 90), some (10, 80, 10, 80),
          some (10, 70, 10, 70), some (10, 60, 10, 60), some (10, 50, 10, 50)]
        [7, 7, 7, 7, 7, 7]
        (List.replicate 6 (some (0, -200, 20, 60)))).getD 5 (-1) =
        ([7, 7, 7, 7, 7, 7] : List ℤ).getD 4 (-1) ∧
      ([7, 7, 7, 7, 7, 7] : List ℤ).getD 4 (-1) ≠ -1 :=
  c3_shot_attribution sDefault _ _ _ rfl 5 (by with_unfolding_all decide)

/-- Claim C9: `detect_shots` (with the default configuration
`trajectory_frames = 5`, `min_trajectory_points = 3`) returns the sentinel
`-1` at every frame whose trajectory window degenerates: fewer than 5 frames
of history, a missing ball center or hoop bbox, fewer than 3 non-null ball
centers in the last 5 frames, or a trajectory direction vector of squared
magnitude below 4 (i.e. magnitude below 2 units).  The embedding is a total
function, so every such frame short-circuits to "no detection" rather than
failing. -/
theorem c9_degenerate_frames (bt : List (Option Bbox)) (ba : List ℤ)
    (hoops : List (Option Bbox)) (f : ℕ)
    (h : f < sDefault.trajectory_frames ∨
      ballCenterAt bt f = none ∨
      hoops.getD f none = none ∨
      (recentBallPositions sDefault bt f).length < sDefault.min_trajectory_points ∨
      normSq (trajVec sDefault bt f) < 4) :
    (detectShots sDefault bt ba hoops).getD f (-1) = -1 := by
  by_cases hf : f < bt.length
  · rw [detectShots_getD_of_lt sDefault bt ba hoops hf]
    simp only [shotAt]
    split
    · rfl
    · split
      · rename_i hoopBbox ballPos hhoop hball
        split
        · rfl
        · split
          · rfl
          · split
            · rfl
            · split
              · rename_i htraj hlen2 hnorm hcond
                rcases h with h | h | h | h | h
                · exact absurd h htraj
                · rw [hball] at h; exact absurd h (by simp)
                · rw [hhoop] at h; exact absurd h (by simp)
                · exact absurd h hlen2
                · exact absurd h hnorm
              · rfl
      · rfl
  · exact detectShots_getD_of_ge sDefault bt ba hoops (le_of_not_lt hf)

/-- Witness for C9: frame 0 of a one-frame input has fewer than 5 frames of
history, so no shot is detected. -/
theorem c9_witness :
    (detectShots sDefault [some (0, 0, 2, 2)] [3]
        [some (0, 0, 1, 1)]).getD 0 (-1) = -1 :=
  c9_degenerate_frames [some (0, 0, 2, 2)] [3] [some (0, 0, 1, 1)] 0
    (Or.inl (by decide))

/-- The meaning of the running `prev_holder` / `previous_frame` accumulator of
`detect_passes` / `detect_interceptions` after the updates for frames
`0 .. f-1` have been applied: either no frame below `f` had a valid holder, or
`pf` is the last frame below `f` whose holder was valid, and `ph` is that
holder. -/
def lastHolderInv (ba : List ℤ) (f : ℕ) (ph : ℤ) (pf : ℕ) : Prop :=
  (ph = -1 ∧ ∀ j, j < f → ba.getD j (-1) = -1) ∨
    (ph ≠ -1 ∧ pf < f ∧ ba.getD pf (-1) = ph ∧
      ∀ j, pf < j → j < f → ba.getD j (-1) = -1)

theorem lastHolderInv_zero (ba : List ℤ) : lastHolderInv ba 0 (-1) 0 :=
  Or.inl ⟨rfl, fun j hj => absurd hj (Nat.not_lt_zero j)⟩

theorem lastHolderInv_step (ba : List ℤ) (a : ℕ) (ha : 1 ≤ a) (ph : ℤ) (pf : ℕ)
    (h : lastHolderInv ba (a - 1) ph pf) :
    lastHolderInv ba a (if ba.getD (a - 1) (-1) ≠ -1 then ba.getD (a - 1) (-1) else ph)
      (if ba.getD (a - 1) (-1) ≠ -1 then a - 1 else pf) := by
  by_cases hb : ba.getD (a - 1) (-1) ≠ -1
  · rw [if_pos hb, if_pos hb]
    exact Or.inr ⟨hb, by omega, rfl, fun j h1 h2 => by omega⟩
  · rw [if_neg hb, if_neg hb]
    push_neg at hb
    rcases h with ⟨h1, h2⟩ | ⟨h1, h2, h3, h4⟩
    · refine Or.inl ⟨h1, fun j hj => ?_⟩
      rcases Nat.lt_or_ge j (a - 1) with hj' | hj'
      · exact h2 j hj'
      · have : j = a - 1 := by omega
        exact this ▸ hb
    · refine Or.inr ⟨h1, by omega, h3, fun j hj1 hj2 => ?_⟩
      rcases Nat.lt_or_ge j (a - 1) with hj' | hj'
      · exact h4 j hj1 hj'
      · have : j = a - 1 := by omega
        exact this ▸ hb

theorem transGo_getD (ba : List ℤ) (emit : ℕ → ℤ → ℕ → ℤ) :
    ∀ (k a : ℕ) (ph : ℤ) (pf i : ℕ), 1 ≤ a → i < k →
      lastHolderInv ba (a - 1) ph pf →
      ∃ ph' pf', lastHolderInv ba (a + i) ph' pf' ∧
        (transGo ba emit (List.range' a k) ph pf).getD i (-1) = emit (a + i) ph' pf' := by
  intro k
  induction k with
  | zero => intro a ph pf i _ hik; omega
  | succ k ih =>
    intro a ph pf i ha hik hinv
    rw [List.range'_succ a k 1]
    have hstep := lastHolderInv_step ba a ha ph pf hinv
    cases i with
    | zero =>
      refine ⟨if ba.getD (a - 1) (-1) ≠ -1 then ba.getD (a - 1) (-1) else ph,
        if ba.getD (a - 1) (-1) ≠ -1 then a - 1 else pf, by simpa using hstep, ?_⟩
      simp only [transGo, List.getD_cons_zero, Nat.add_zero]
    | succ i' =>
      have hinv' : lastHolderInv ba (a + 1 - 1)
          (if ba.getD (a - 1) (-1) ≠ -1 then ba.getD (a - 1) (-1) else ph)
          (if ba.getD (a - 1) (-1) ≠ -1 then a - 1 else pf) := by
        simpa using hstep
      obtain ⟨ph', pf', hI, hV⟩ := ih (a + 1) _ _ i' (by omega) (by omega) hinv'
      refine ⟨ph', pf', ?_, ?_⟩
      · have : a + 1 + i' = a + (i' + 1) := by omega
        exact this ▸ hI
      · simp only [transGo, List.getD_cons_succ]
        have : a + 1 + i' = a + (i' + 1) := by omega
        exact this ▸ hV

theorem transGo_length (ba : List ℤ) (emit : ℕ → ℤ → ℕ → ℤ) :
    ∀ (fs : List ℕ) (ph : ℤ) (pf : ℕ),
      (transGo ba emit fs ph pf).length = fs.length := by
  intro fs
  induction fs with
  | nil => intro ph pf; rfl
  | cons f rest ih => intro ph pf; simp [transGo, ih]

theorem detectTrans_getD (ba : List ℤ) (emit : ℕ → ℤ → ℕ → ℤ) (f : ℕ)
    (h0 : 1 ≤ f) (hf : f < ba.length) :
    ∃ ph pf, lastHolderInv ba f ph pf ∧
      (if ba.length = 0 then []
        else -1 :: transGo ba emit (List.range' 1 (ba.length - 1)) (-1) 0).getD
          f (-1) = emit f ph pf := by
  have hne : ¬ba.length = 0 := by omega
  rw [if_neg hne]
  obtain ⟨f', hf'⟩ : ∃ f', f = f' + 1 := ⟨f - 1, by omega⟩
  subst hf'
  rw [List.getD_cons_succ]
  obtain ⟨ph', pf', hI, hV⟩ :=
    transGo_getD ba emit (ba.length - 1) 1 (-1) 0 f' le_rfl (by omega)
      (lastHolderInv_zero ba)
  have hidx : 1 + f' = f' + 1 := by omega
  rw [hidx] at hI hV
  exact ⟨ph', pf', hI, hV⟩

theorem detectPasses_length (ba : List ℤ) (pa : List (List (ℤ × ℤ))) :
    (detectPasses ba pa).length = ba.length := by
  unfold detectPasses
  split
  · simp [*]
  · simp only [List.length_cons, transGo_length, List.length_range']
    omega

theorem detectInterceptions_length (ba : List ℤ) (pa : List (List (ℤ × ℤ)))
    (sa : List Bool) :
    (detectInterceptions ba pa sa).length = ba.length := by
  unfold detectInterceptions
  split
  · simp [*]
  · simp only [List.length_cons, transGo_length, List.length_range']
    omega

theorem detectPasses_getD (ba : List ℤ) (pa : List (List (ℤ × ℤ))) (f : ℕ)
    (h0 : 1 ≤ f) (hf : f < ba.length) :
    ∃ ph pf, lastHolderInv ba f ph pf ∧
      (detectPasses ba pa).getD f (-1) = passEmit ba pa f ph pf :=
  detectTrans_getD ba (passEmit ba pa) f h0 hf

theorem detectInterceptions_getD (ba : List ℤ) (pa : List (List (ℤ × ℤ)))
    (sa : List Bool) (f : ℕ) (h0 : 1 ≤ f) (hf : f < ba.length) :
    ∃ ph pf, lastHolderInv ba f ph pf ∧
      (detectInterceptions ba pa sa).getD f (-1) = interceptEmit ba pa sa f ph pf :=
  detectTrans_getD ba (interceptEmit ba pa sa) f h0 hf

/-- Claim C4: whenever `detect_passes` emits a team `t` at frame `f`, `t`
equals the team of the previous holder (resolved at the last frame `j < f`
with a valid holder, via that frame's team assignment) and the team of the new
holder at `f`, with both teams present (not `-1`) and the two holders distinct
and valid; whenever `detect_interceptions` emits a team `t` at frame `f`, `t`
equals the new holder's team at `f` and differs from the previous holder's
team, both teams being present. -/
theorem c4_pass_interception_teams :
    (∀ (ba : List ℤ) (pa : List (List (ℤ × ℤ))),
      pa.length = ba.length → ∀ (f : ℕ) (t : ℤ),
        (detectPasses ba pa).getD f (-1) = t → t ≠ -1 →
        ∃ j, j < f ∧ ba.getD j (-1) ≠ -1 ∧
          (∀ k, j < k → k < f → ba.getD k (-1) = -1) ∧
          ba.getD f (-1) ≠ -1 ∧ ba.getD j (-1) ≠ ba.getD f (-1) ∧
          t = teamOf (pa.getD j []) (ba.getD j (-1)) ∧
          t = teamOf (pa.getD f []) (ba.getD f (-1)) ∧ t ≠ -1) ∧
    (∀ (ba : List ℤ) (pa : List (List (ℤ × ℤ))) (sa : List Bool),
      pa.length = ba.length → ∀ (f : ℕ) (t : ℤ),
        (detectInterceptions ba pa sa).getD f (-1) = t → t ≠ -1 →
        ∃ j, j < f ∧ ba.getD j (-1) ≠ -1 ∧
          (∀ k, j < k → k < f → ba.getD k (-1) = -1) ∧
          ba.getD f (-1) ≠ -1 ∧ ba.getD j (-1) ≠ ba.getD f (-1) ∧
          t = teamOf (pa.getD f []) (ba.getD f (-1)) ∧
          t ≠ teamOf (pa.getD j []) (ba.getD j (-1)) ∧
          teamOf (pa.getD j []) (ba.getD j (-1)) ≠ -1 ∧ t ≠ -1) := by
  constructor
  · intro ba pa _hlen f t hval hne
    rcases Nat.lt_or_ge f 1 with hf1 | hf1
    · have hf0 : f = 0 := by omega
      subst hf0
      have hzero : (detectPasses ba pa).getD 0 (-1) = -1 := by
        unfold detectPasses
        split <;> rfl
      rw [hval] at hzero
      exact absurd hzero hne
    · rcases Nat.lt_or_ge f ba.length with hf2 | hf2
      · obtain ⟨ph, pf, hI, hV⟩ := detectPasses_getD ba pa f hf1 hf2
        rw [hval] at hV
        simp only [passEmit] at hV
        split at hV
        · rename_i hcond
          split at hV
          · rename_i hteam
            rcases hI with ⟨hph, _⟩ | ⟨hph, hpf, hba, hmax⟩
            · exact absurd hph hcond.1
            · refine ⟨pf, hpf, ?_, hmax, hcond.2.1, ?_, ?_, ?_, hne⟩
              · rw [hba]; exact hph
              · rw [hba]; exact hcond.2.2
              · rw [hba]; exact hV
              · exact hV.trans hteam.1
          · exact absurd hV hne
        · exact absurd hV hne
      · have hdef : (detectPasses ba pa).getD f (-1) = -1 :=
          List.getD_eq_default _ _ (by rw [detectPasses_length]; omega)
        rw [hval] at hdef
        exact absurd hdef hne
  · intro ba pa sa _hlen f t hval hne
    rcases Nat.lt_or_ge f 1 with hf1 | hf1
    · have hf0 : f = 0 := by omega
      subst hf0
      have hzero : (detectInterceptions ba pa sa).getD 0 (-1) = -1 := by
        unfold detectInterceptions
        split <;> rfl
      rw [hval] at hzero
      exact absurd hzero hne
    · rcases Nat.lt_or_ge f ba.length with hf2 | hf2
      · obtain ⟨ph, pf, hI, hV⟩ := detectInterceptions_getD ba pa sa f hf1 hf2
        rw [hval] at hV
        simp only [interceptEmit] at hV
        split at hV
        · rename_i hcond
          split at hV
          · rename_i hteam
            rcases hI with ⟨hph, _⟩ | ⟨hph, hpf, hba, hmax⟩
            · exact absurd hph hcond.1
            · refine ⟨pf, hpf, ?_, hmax, hcond.2.1, ?_, hV, ?_, ?_, hne⟩
              · rw [hba]; exact hph
              · rw [hba]; exact hcond.2.2
              · rw [hba, hV]; exact fun hh => hteam.1 hh.symm
              · rw [hba]; exact hteam.2.1
          · exact absurd hV hne
        · exact absurd hV hne
      · have hdef : (detectInterceptions ba pa sa).getD f (-1) = -1 :=
          List.getD_eq_default _ _ (by rw [detectInterceptions_length]; omega)
        rw [hval] at hdef
        exact absurd hdef hne

/-- Witness for C4: on `ball_acquisition = [1,1,2,2,-1]` with both players on
team 1, the pass emitted at frame 2 carries both transitioning holders' team. -/
theorem c4_witness :
    ∃ j, j < 2 ∧ ([1, 1, 2, 2, -1] : List ℤ).getD j (-1) ≠ -1 ∧
      (∀ k, j < k → k < 2 → ([1, 1, 2, 2, -1] : List ℤ).getD k (-1) = -1) ∧
      ([1, 1, 2, 2, -1] : List ℤ).getD 2 (-1) ≠ -1 ∧
      ([1, 1, 2, 2, -1] : List ℤ).getD j (-1) ≠
        ([1, 1, 2, 2, -1] : List ℤ).getD 2 (-1) ∧
      (1 : ℤ) = teamOf ((List.replicate 5 [((1 : ℤ), (1 : ℤ)), (2, 1)]).getD j [])
          (([1, 1, 2, 2, -1] : List ℤ).getD j (-1)) ∧
      (1 : ℤ) = teamOf ((List.replicate 5 [((1 : ℤ), (1 : ℤ)), (2, 1)]).getD 2 [])
          (([1, 1, 2, 2, -1] : List ℤ).getD 2 (-1)) ∧ (1 : ℤ) ≠ -1 :=
  c4_pass_interception_teams.1 [1, 1, 2, 2, -1]
    (List.replicate 5 [(1, 1), (2, 1)]) rfl 2 1 (by decide) (by decide)

theorem pySlice_any_true (sa : List Bool) (f s2 : ℕ) (h1 : f - 24 ≤ s2)
    (h2 : s2 < f) (h3 : sa.getD s2 false = true) :
    (pySlice (f - 24) f sa).any id = true := by
  have hs : s2 < sa.length := by
    by_contra hc
    push_neg at hc
    rw [List.getD_eq_default _ _ hc] at h3
    exact Bool.false_ne_true h3
  have hget : sa[s2]? = some true := by
    rw [List.getD_eq_getElem _ _ hs] at h3
    rw [List.getElem?_eq_getElem hs, h3]
  rw [List.any_eq_true]
  refine ⟨true, ?_, rfl⟩
  have hidx : (pySlice (f - 24) f sa)[s2 - (f - 24)]? = some true := by
    unfold pySlice
    rw [List.getElem?_take, if_pos (by omega), List.getElem?_drop]
    have heq : f - 24 + (s2 - (f - 24)) = s2 := by omega
    rw [heq, hget]
  exact List.getElem?_mem hidx

/-- Claim C5: `detect_interceptions` never emits an interception at a frame
`f` when a shot was attempted within the preceding `shot_window = 24` frames
(some `s` with `f - 24 ≤ s < f` and `shot_attempts[s]` true), even if the
previous and new holders are on different teams. -/
theorem c5_no_interception_after_shot (ba : List ℤ)
    (pa : List (List (ℤ × ℤ))) (sa : List Bool) (f s : ℕ)
    (h1 : f - 24 ≤ s) (h2 : s < f) (h3 : sa.getD s false = true) :
    (detectInterceptions ba pa sa).getD f (-1) = -1 := by
  have hrec := pySlice_any_true sa f s h1 h2 h3
  rcases Nat.lt_or_ge f ba.length with hf2 | hf2
  · obtain ⟨ph, pf, _, hV⟩ :=
      detectInterceptions_getD ba pa sa f (by omega) hf2
    rw [hV]
    simp only [interceptEmit]
    split
    · rename_i hcond2
      split
      · rename_i hcond
        rw [hrec] at hcond
        simp at hcond
      · rfl
    · rfl
  · exact List.getD_eq_default _ _ (by rw [detectInterceptions_length]; omega)

/-- Witness for C5: holders 1 then 2 on different teams at frame 2, but a
shot attempt at frame 0 suppresses the interception. -/
theorem c5_witness :
    (detectInterceptions [1, 1, 2]
        (List.replicate 3 [((1 : ℤ), (1 : ℤ)), (2, 2)])
        [true, false, false]).getD 2 (-1) = -1 :=
  c5_no_interception_after_shot [1, 1, 2]
    (List.replicate 3 [(1, 1), (2, 2)]) [true, false, false] 2 0
    (by decide) (by decide) (by decide)

theorem getState_ensureKey (states : List (ℤ × PlayerState)) (pid : ℤ) :
    getState (ensureKey states pid) pid = getState states pid := by
  unfold ensureKey
  split
  · rfl
  · rename_i hany
    have hnone : states.find? (fun e => e.1 == pid) = none := by
      rw [List.find?_eq_none]
      intro x hx hbeq
      exact hany (List.any_eq_true.mpr ⟨x, hx, hbeq⟩)
    unfold getState
    rw [List.find?_append, hnone]
    simp

theorem ddCheck_snd_le (cfg : VConfig) (hist : List (Option Point))
    (st : PlayerState) : (ddCheck cfg hist st).2 ≤ 1 := by
  unfold ddCheck
  split <;> simp

/-- Counterexample to claim C7 as stated: input where, at frame 3, the ball
history shows the 4-sample stable-then-downward-push pattern, the holder's
`dribble_stopped` flag is true and `violation_committed` is false, yet the
cumulative double-dribble count does not increase, because the holder has no
bounding box that frame (the source `continue`s before the double-dribble
check). -/
theorem c7_counterexample :
    isStartingDribble ⟨30, 2, 8, 5⟩
        ((stateAt ⟨30, 2, 8, 5⟩ [[(1, (0, 0, 0, 0))], [], [], []]
            [some (0, 0, 0, 20), some (0, 0, 0, 20), some (0, 0, 0, 24),
              some (0, 0, 0, 28)] [1, -1, -1, 1] 3).history ++
          [getBallCenter (some (0, 0, 0, 28))]) = true ∧
      (getState (stateAt ⟨30, 2, 8, 5⟩ [[(1, (0, 0, 0, 0))], [], [], []]
            [some (0, 0, 0, 20), some (0, 0, 0, 20), some (0, 0, 0, 24),
              some (0, 0, 0, 28)] [1, -1, -1, 1] 3).states 1).dribble_stopped =
          true ∧
      (getState (stateAt ⟨30, 2, 8, 5⟩ [[(1, (0, 0, 0, 0))], [], [], []]
            [some (0, 0, 0, 20), some (0, 0, 0, 20), some (0, 0, 0, 24),
              some (0, 0, 0, 28)] [1, -1, -1, 1] 3).states 1).violation_committed =
          false ∧
      ([1, -1, -1, 1] : List ℤ).getD 3 (-1) = 1 ∧
      (stateAt ⟨30, 2, 8, 5⟩ [[(1, (0, 0, 0, 0))], [], [], []]
          [some (0, 0, 0, 20), some (0, 0, 0, 20), some (0, 0, 0, 24),
            some (0, 0, 0, 28)] [1, -1, -1, 1] 4).totalDD = 0 ∧
      (detectViolations ⟨30, 2, 8, 5⟩ [[(1, (0, 0, 0, 0))], [], [], []]
          [some (0, 0, 0, 20), some (0, 0, 0, 20), some (0, 0, 0, 24),
            some (0, 0, 0, 28)] [1, -1, -1, 1]).2 = [0, 0, 0, 0] := by
  with_unfolding_all decide

/-- Claim C7 (amended): at each frame, the cumulative double-dribble count
increments (by exactly one) if and only if the frame's holder is valid, the
holder's center is computable (its bounding box is present that frame — the
condition the counterexample forces), the ball position history (including
this frame) shows the 4-sample stable-then-downward-push pattern, and the
holder's state after the reset loop has `dribble_stopped` true and
`violation_committed` false; moreover the double-dribble branch itself sets
`violation_committed` and clears `dribble_stopped` on the state it returns. -/
theorem c7_amended_double_dribble (cfg : VConfig) (s : VState) (fr : VFrame) :
    ((processFrame cfg s fr).totalDD = s.totalDD + 1 ↔
      fr.holder ≠ -1 ∧
        getPlayerCenter (lookupBbox fr.players fr.holder) ≠ none ∧
        isStartingDribble cfg (s.history ++ [getBallCenter fr.ball]) = true ∧
        (getState (resetNonHolders s.states fr.holder) fr.holder).dribble_stopped =
          true ∧
        (getState (resetNonHolders s.states fr.holder) fr.holder).violation_committed =
          false) ∧
      (s.totalDD ≤ (processFrame cfg s fr).totalDD ∧
        (processFrame cfg s fr).totalDD ≤ s.totalDD + 1) ∧
      ∀ (hist : List (Option Point)) (st : PlayerState),
        (ddCheck cfg hist st).2 = 1 →
          (ddCheck cfg hist st).1.violation_committed = true ∧
            (ddCheck cfg hist st).1.dribble_stopped = false := by
  refine ⟨?_, ⟨processFrame_totalDD_le cfg s fr, ?_⟩, ?_⟩
  · simp only [processFrame]
    split
    · rename_i hhold
      constructor
      · intro h
        simp at h
      · rintro ⟨hne, -⟩
        exact absurd hhold hne
    · split
      · rename_i hpos
        constructor
        · intro h
          simp at h
        · rintro ⟨-, hcen, -⟩
          exact absurd hpos hcen
      · rename_i hhold hdisc ppos hpos
        rw [getState_ensureKey]
        unfold ddCheck
        split
        · rename_i hcond
          simp only [Bool.and_eq_true, Bool.not_eq_true'] at hcond
          constructor
          · intro _
            exact ⟨hhold, by rw [hpos]; simp, hcond.1.1, hcond.1.2, hcond.2⟩
          · intro _
            simp
        · rename_i hcond
          constructor
          · intro h
            simp at h
          · rintro ⟨-, -, ha, hb, hc⟩
            refine absurd ?_ hcond
            rw [ha, hb, hc]
            rfl
  · simp only [processFrame]
    split
    · simp
    · split
      · simp
      · have hle := ddCheck_snd_le cfg (s.history ++ [getBallCenter fr.ball])
          (getState (ensureKey (resetNonHolders s.states fr.holder) fr.holder)
            fr.holder)
        simp
        omega
  · intro hist st h
    unfold ddCheck at h ⊢
    split at h
    · rename_i hcond
      rw [if_pos hcond]
      exact ⟨rfl, rfl⟩
    · simp at h

/-- Witness for the amended C7: a concrete frame on which all conditions hold
and the double-dribble count increments by one. -/
theorem c7_witness :
    (processFrame ⟨30, 2, 8, 5⟩
        ⟨[(1, ⟨.no_ball, true, none, false⟩)],
          [some (0, 10), some (0, 10), some (0, 12)], 0, 0⟩
        ⟨[(1, (0, 0, 0, 0))], some (0, 0, 0, 28), 1⟩).totalDD =
      (⟨[(1, ⟨.no_ball, true, none, false⟩)],
          [some (0, 10), some (0, 10), some (0, 12)], 0, 0⟩ : VState).totalDD + 1 :=
  (c7_amended_double_dribble ⟨30, 2, 8, 5⟩
      ⟨[(1, ⟨.no_ball, true, none, false⟩)],
        [some (0, 10), some (0, 10), some (0, 12)], 0, 0⟩
      ⟨[(1, (0, 0, 0, 0))], some (0, 0, 0, 28), 1⟩).1.mpr
    (by with_unfolding_all decide)

/-- Counterexample to claim C8 as stated: with `hoop_positions` shorter than
`ball_tracks`, `detect_shots` completes normally (skipping the uncovered
frames), and with `travels` longer than `double_dribbles`,
`collect_violations` completes normally on the zipped (shorter) prefix — no
run is rejected.  The embedding is total precisely because the source guards
the mismatch (`if frame_num >= len(hoop_positions): continue`) and iterates
`zip(travels, double_dribbles)`; no precondition check or exception exists on
these paths. -/
theorem c8_counterexample :
    detectShots sDefault [some (0, 0, 1, 1)] [5] [] = [-1] ∧
      (collectViolations [1, 1] [0] (initEC 30)).events = [travelEvent 30 0] := by
  with_unfolding_all decide

/-- Claim C8 (amended): a per-frame length mismatch is silently tolerated, not
rejected: `detect_shots` returns the sentinel `-1` at every frame not covered
by `hoop_positions`, and `collect_violations` processes exactly the common
(minimum-length) prefix of its two arrays. -/
theorem c8_amended_silent_truncation :
    (∀ (cfg : SConfig) (bt : List (Option Bbox)) (ba : List ℤ)
        (hoops : List (Option Bbox)) (f : ℕ), hoops.length ≤ f →
        (detectShots cfg bt ba hoops).getD f (-1) = -1) ∧
      ∀ (travels dds : List ℕ) (st : ECState),
        collectViolations travels dds st =
          collectViolations (travels.take (min travels.length dds.length))
            (dds.take (min travels.length dds.length)) st := by
  constructor
  · intro cfg bt ba hoops f hlen2
    rcases Nat.lt_or_ge f bt.length with hf | hf
    · rw [detectShots_getD_of_lt cfg bt ba hoops hf]
      unfold shotAt
      rw [if_pos hlen2]
    · exact detectShots_getD_of_ge cfg bt ba hoops hf
  · intro travels dds st
    unfold collectViolations
    rw [← List.zip_eq_zip_take_min]

/-- Witness for the amended C8: frame 0 lies beyond an empty `hoop_positions`
array, and the run yields the sentinel instead of failing. -/
theorem c8_witness :
    (detectShots sDefault [some (0, 0, 2, 2)] [5] []).getD 0 (-1) = -1 :=
  c8_amended_silent_truncation.1 sDefault [some (0, 0, 2, 2)] [5] [] 0
    (by decide)

theorem resetNonHolders_mem {l : List (ℤ × PlayerState)} {h p : ℤ}
    {st : PlayerState} (hm : (p, st) ∈ resetNonHolders l h) (hp : p ≠ h) :
    st.action = .no_ball ∧ st.violation_committed = false ∧
      st.last_pos = none := by
  unfold resetNonHolders at hm
  obtain ⟨⟨q, s0⟩, _, heq⟩ := List.mem_map.mp hm
  by_cases hb : q = h
  · rw [if_pos (by simpa using hb)] at heq
    rw [Prod.mk.injEq] at heq
    exact absurd (heq.1 ▸ hb) hp
  · rw [if_neg (by simpa using hb)] at heq
    rw [Prod.mk.injEq] at heq
    rw [← heq.2]
    simp [resetOne]

theorem ensureKey_mem {l : List (ℤ × PlayerState)} {k p : ℤ}
    {st : PlayerState} (hm : (p, st) ∈ ensureKey l k) (hp : p ≠ k) :
    (p, st) ∈ l := by
  unfold ensureKey at hm
  split at hm
  · exact hm
  · rcases List.mem_append.mp hm with hm | hm
    · exact hm
    · simp only [List.mem_singleton, Prod.mk.injEq] at hm
      exact absurd hm.1 hp

theorem setState_mem {l : List (ℤ × PlayerState)} {k p : ℤ}
    {st stNew : PlayerState} (hm : (p, st) ∈ setState l k stNew)
    (hp : p ≠ k) : (p, st) ∈ l := by
  unfold setState at hm
  obtain ⟨⟨q, s0⟩, he, heq⟩ := List.mem_map.mp hm
  by_cases hb : q = k
  · rw [if_pos (by simpa using hb)] at heq
    rw [Prod.mk.injEq] at heq
    exact absurd heq.1.symm hp
  · rw [if_neg (by simpa using hb)] at heq
    exact heq ▸ he

/-- Claim C10: after `detect_violations` processes any frame, every tracked
player other than that frame's holder has `action = no_ball`,
`violation_committed = false` and `last_pos = none`; the reset of a track that
was in an active state sets `dribble_stopped` to true rather than clearing it,
and the flag persists into the player's next possession episode, so a dribble
begun in a later possession can still trigger a double dribble (concrete run:
player 1 possesses at frame 0, loses the ball, repossesses at frame 3 and the
double-dribble counter increments there). -/
theorem c10_nonholder_reset_dribble_persists :
    (∀ (cfg : VConfig) (s : VState) (fr : VFrame) (p : ℤ) (st : PlayerState),
      (p, st) ∈ (processFrame cfg s fr).states → p ≠ fr.holder →
        st.action = .no_ball ∧ st.violation_committed = false ∧
          st.last_pos = none) ∧
      (∀ st : PlayerState, st.action ≠ .no_ball →
        (resetOne st).dribble_stopped = true) ∧
      (detectViolations ⟨30, 2, 8, 5⟩
          [[(1, (0, 0, 0, 0))], [], [], [(1, (0, 0, 0, 0))]]
          [some (0, 0, 0, 20), some (0, 0, 0, 20), some (0, 0, 0, 24),
            some (0, 0, 0, 28)]
          [1, -1, -1, 1]).2 = [0, 0, 0, 1] := by
  refine ⟨?_, ?_, ?_⟩
  · intro cfg s fr p st hm hp
    revert hm
    simp only [processFrame]
    split
    · intro hm
      exact resetNonHolders_mem hm hp
    · split
      · intro hm
        exact resetNonHolders_mem (ensureKey_mem hm hp) hp
      · intro hm
        exact resetNonHolders_mem (ensureKey_mem (setState_mem hm hp) hp) hp
  · intro st h
    simp [resetOne, h]
  · with_unfolding_all decide

/-- Witness for C10: a concrete non-holder entry after a frame with no holder
is fully reset. -/
theorem c10_witness :
    (⟨.no_ball, true, none, false⟩ : PlayerState).action = .no_ball ∧
      (⟨.no_ball, true, none, false⟩ : PlayerState).violation_committed = false ∧
      (⟨.no_ball, true, none, false⟩ : PlayerState).last_pos = none :=
  c10_nonholder_reset_dribble_persists.1 ⟨30, 2, 8, 5⟩
    ⟨[(1, ⟨.transient, false, none, false⟩)], [], 0, 0⟩ ⟨[], none, -1⟩ 1
    ⟨.no_ball, true, none, false⟩ (by with_unfolding_all decide) (by decide)
